import Mathlib

/-!
yt-downloader: a verification development of `src/server.js`.

A JavaScript string is modelled as the list of its UTF-16 code units
(`JSString`), so that `length`, `slice` and the regular expressions (none of
which carries the `u` flag) see exactly what the engine sees.  An absent
value (`undefined`, `null`) is `none`; the empty string and an absent value are
the two falsy inputs the code distinguishes from a real name.
-/

namespace YtDownloader

/-- A JavaScript string: its UTF-16 code units. -/
abbrev JSString := List Nat

/-! ## Filename sanitizer (`server.js` lines 48-54) -/

/-- The character class `[\/:*?"<>|\n\r\t]` of line 50: slash, colon, star,
question mark, double quote, angle brackets, bar, line feed, carriage return,
tab. -/
def isHostile (c : Nat) : Bool :=
  c == 47 || c == 58 || c == 42 || c == 63 || c == 34 || c == 60 || c == 62 ||
  c == 124 || c == 10 || c == 13 || c == 9

/-- The class `\s` of ECMAScript (WhiteSpace and LineTerminator code points),
which is also the set `String.prototype.trim` strips. -/
def isWhitespace (c : Nat) : Bool :=
  c == 9 || c == 10 || c == 11 || c == 12 || c == 13 || c == 32 || c == 160 ||
  c == 5760 || (8192 ≤ c && c ≤ 8202) || c == 8232 || c == 8233 || c == 8239 ||
  c == 8287 || c == 12288 || c == 65279

/-- Line 50: `name.replace(/[\/:*?"<>|\n\r\t]/g, '_')`. -/
def replaceHostile (s : JSString) : JSString :=
  s.map (fun c => if isHostile c then 95 else c)

/-- Scanner for `replace(/\s+/g, ' ')`: `inRun` records that the previous code
unit belonged to the whitespace run already replaced by one space. -/
def collapseAux : Bool → JSString → JSString
  | _, [] => []
  | inRun, c :: cs =>
    if isWhitespace c then
      (if inRun then collapseAux true cs else 32 :: collapseAux true cs)
    else c :: collapseAux false cs

/-- Line 51, first half: `s.replace(/\s+/g, ' ')`. -/
def collapseWhitespace (s : JSString) : JSString := collapseAux false s

/-- Line 51, second half: `String.prototype.trim`. -/
def trim (s : JSString) : JSString :=
  List.rdropWhile isWhitespace (List.dropWhile isWhitespace s)

/-- Line 52: `if (s.length > 140) s = s.slice(0, 140)`. -/
def truncate140 (s : JSString) : JSString :=
  if s.length > 140 then s.take 140 else s

/-- The string `'download'`. -/
def defaultName : JSString := [100, 111, 119, 110, 108, 111, 97, 100]

/-- Lines 50-52 applied to a non-empty string: replace, collapse, trim. -/
def cleaned (s : JSString) : JSString :=
  trim (collapseWhitespace (replaceHostile s))

/-- The function `sanitizeFilename` of lines 48-54.  `!name` holds for an
absent value and for the empty string; `s || 'download'` falls back when the
cleaned text is empty. -/
def sanitizeFilename (name : Option JSString) : JSString :=
  match name with
  | none => defaultName
  | some [] => defaultName
  | some (c :: cs) =>
    let s := truncate140 (cleaned (c :: cs))
    if s = [] then defaultName else s

/-! ## Response header (`server.js` lines 56-66) -/

/-- The ASCII text of a source literal as code units. -/
def ascii (s : String) : JSString := s.toList.map Char.toNat

/-- Line 58: `.replace(/['()]/g, escape)`; `escape` turns the three characters
into `%27`, `%28`, `%29`. -/
def escapeQuoteParens (s : JSString) : JSString :=
  s.flatMap (fun c =>
    if c = 39 then [37, 50, 55] else if c = 40 then [37, 50, 56]
    else if c = 41 then [37, 50, 57] else [c])

/-- Line 59: `.replace(/\*/g, '%2A')`. -/
def escapeStar (s : JSString) : JSString :=
  s.flatMap (fun c => if c = 42 then [37, 50, 65] else [c])

/-- Line 60: `.replace(/%(7C|60|5E)/g, (match, p1) => '%' + p1.toUpperCase())`.
The pattern is case sensitive, so each match is re-emitted as it stands. -/
def upperEscapes : JSString → JSString
  | 37 :: 55 :: 67 :: rest => 37 :: 55 :: 67 :: upperEscapes rest
  | 37 :: 54 :: 48 :: rest => 37 :: 54 :: 48 :: upperEscapes rest
  | 37 :: 53 :: 69 :: rest => 37 :: 53 :: 69 :: upperEscapes rest
  | c :: cs => c :: upperEscapes cs
  | [] => []

/-- The characters `encodeURIComponent` leaves as they are: letters, digits
and `- _ . ! ~ * ' ( )`. -/
def isUnreserved (c : Nat) : Bool :=
  (65 ≤ c && c ≤ 90) || (97 ≤ c && c ≤ 122) || (48 ≤ c && c ≤ 57) ||
  c == 45 || c == 95 || c == 46 || c == 33 || c == 126 || c == 42 || c == 39 ||
  c == 40 || c == 41

/-- An upper-case hexadecimal digit. -/
def hexDigit (n : Nat) : Nat := if n < 10 then 48 + n else 55 + n

/-- One octet as `%XX`. -/
def percentOctet (b : Nat) : JSString := [37, hexDigit (b / 16), hexDigit (b % 16)]

/-- The UTF-8 octets of a code point. -/
def utf8Octets (cp : Nat) : List Nat :=
  if cp < 128 then [cp]
  else if cp < 2048 then [192 + cp / 64, 128 + cp % 64]
  else if cp < 65536 then [224 + cp / 4096, 128 + (cp / 64) % 64, 128 + cp % 64]
  else [240 + cp / 262144, 128 + (cp / 4096) % 64, 128 + (cp / 64) % 64, 128 + cp % 64]

/-- A code point, percent-encoded octet by octet. -/
def percentEncode (cp : Nat) : JSString := (utf8Octets cp).flatMap percentOctet

/-- The engine's `encodeURIComponent`: unreserved characters stay, every
other code point is written as the `%XX` of its UTF-8 octets; `none` stands
for the `URIError` thrown at a surrogate that has no partner. -/
def encodeURIComponent : JSString → Option JSString
  | [] => some []
  | c :: cs =>
    if isUnreserved c then (encodeURIComponent cs).map (fun e => c :: e)
    else if 56320 ≤ c ∧ c ≤ 57343 then none
    else if 55296 ≤ c ∧ c ≤ 56319 then
      match cs with
      | [] => none
      | d :: rest =>
        if 56320 ≤ d ∧ d ≤ 57343 then
          (encodeURIComponent rest).map
            (fun e => percentEncode ((c - 55296) * 1024 + (d - 56320) + 65536) ++ e)
        else none
    else (encodeURIComponent cs).map (fun e => percentEncode c ++ e)

/-- The function `encodeRFC5987ValueChars` of lines 56-61; `none` when
`encodeURIComponent` throws. -/
def encodeRFC5987ValueChars (str : JSString) : Option JSString :=
  (encodeURIComponent str).map
    (fun e => upperEscapes (escapeStar (escapeQuoteParens e)))

/-- The text `attachment; filename="` that opens the header value. -/
def headerOpen : JSString := ascii "attachment; filename=\""

/-- The text `"; filename*=UTF-8''` between the two attributes. -/
def headerMiddle : JSString := ascii "\"; filename*=UTF-8" ++ [39, 39]

/-- The characters Node accepts in a header value: `res.setHeader` throws
`ERR_INVALID_CHAR` when the value matches `/[^\t\x20-\x7e\x80-\xff]/`. -/
def isValidHeaderChar (c : Nat) : Bool :=
  c == 9 || (32 ≤ c && c ≤ 126) || (128 ≤ c && c ≤ 255)

/-- How the call of `setDownloadFilenameHeaders` ends: the header is set to a
value, or the call throws, `URIError` from the template literal or
`ERR_INVALID_CHAR` from `res.setHeader`, and no header is set. -/
inductive HeaderResult where
  | set (value : JSString)
  | uriError
  | invalidChar
  deriving DecidableEq, Repr

/-- The function `setDownloadFilenameHeaders` of lines 63-66. -/
def setDownloadFilenameHeaders (filename : JSString) : HeaderResult :=
  let safe := sanitizeFilename (some filename)
  match encodeRFC5987ValueChars filename with
  | none => HeaderResult.uriError
  | some ext =>
    let value := headerOpen ++ safe ++ headerMiddle ++ ext
    if value.all isValidHeaderChar then HeaderResult.set value
    else HeaderResult.invalidChar

/-- The text of the plain `filename="..."` attribute of a header value: what
stands between the opening quote and the next double quote. -/
def plainFilename (header : JSString) : JSString :=
  (header.drop headerOpen.length).takeWhile (fun c => c != 34)

/-! ## Paths (Node's POSIX `path` module, as `server.js` uses it) -/

/-- The last portion of a path: trailing slashes dropped, then everything
after the last remaining slash.  This is `path.basename` with one argument. -/
def basename (p : JSString) : JSString :=
  ((p.reverse.dropWhile (fun c => c == 47)).takeWhile (fun c => c != 47)).reverse

/-- Node's `path.extname`: the text from the last dot of the last portion to
its end; empty when there is no dot, when the only dot is the first character
of the portion, or when the portion is `..`. -/
def extname (p : JSString) : JSString :=
  let bn := basename p
  let tailRev := bn.reverse.takeWhile (fun c => c != 46)
  match bn.reverse.dropWhile (fun c => c != 46) with
  | [] => []
  | [_] => []
  | _ :: _ :: _ => if bn = [46, 46] then [] else 46 :: tailRev.reverse

/-- Node's `path.join(dir, f)` for a normalised directory and a plain entry
name: the two joined by one slash. -/
def join (dir f : JSString) : JSString := dir ++ [47] ++ f

/-- The replacement `.replace(/\.[^.]+$/, '')` of lines 202, 204 and 306: the
leftmost position where a dot is followed by one or more non-dot code units
up to the end of the string is where the text is cut. -/
def stripExtension : JSString → JSString
  | [] => []
  | c :: cs =>
    if c = 46 ∧ cs ≠ [] ∧ 46 ∉ cs then [] else c :: stripExtension cs

/-- The expression `str.split(sep)[0]` for a non-empty separator: the text before the first
occurrence of `sep`, the whole text when there is none. -/
def splitHead (sep : JSString) : JSString → JSString
  | [] => []
  | c :: cs => if sep.isPrefixOf (c :: cs) then [] else c :: splitHead sep cs

/-- The text `.%(title)` of lines 189 and 199. -/
def titleMarker : JSString := ascii ".%(title)"

/-- The function `findDownloadedFile` of lines 188-196; `listing` is what
`readdirSync(dir)` returns. -/
def findDownloadedFile (listing : List JSString) (dir patternPrefix : JSString) :
    Option JSString :=
  let base := splitHead titleMarker (basename patternPrefix)
  (listing.find? (fun f => base.isPrefixOf f)).map (fun f => join dir f)

/-- The function `extractOriginalTitleFromSavedName` of lines 198-205. -/
def extractOriginalTitleFromSavedName (filePath patternPrefix : JSString) : JSString :=
  let base := splitHead titleMarker (basename patternPrefix)
  let bn := basename filePath
  if (base ++ [46]).isPrefixOf bn then stripExtension (bn.drop (base.length + 1))
  else stripExtension bn

/-! ## JavaScript `Map` (insertion ordered, unique keys) -/

/-- A `Map` as the list of its entries in insertion order. -/
abbrev JSMap (κ ν : Type) := List (κ × ν)

/-- The method `Map.prototype.get`. -/
def JSMap.get {κ ν : Type} [DecidableEq κ] (m : JSMap κ ν) (k : κ) : Option ν :=
  match m with
  | [] => none
  | (k', v) :: rest => if k' = k then some v else JSMap.get rest k

/-- The method `Map.prototype.has`. -/
def JSMap.has {κ ν : Type} [DecidableEq κ] (m : JSMap κ ν) (k : κ) : Bool :=
  (JSMap.get m k).isSome

/-- The method `Map.prototype.set`: an existing key keeps its place, a new
key goes to the end. -/
def JSMap.set {κ ν : Type} [DecidableEq κ] (m : JSMap κ ν) (k : κ) (v : ν) : JSMap κ ν :=
  match m with
  | [] => [(k, v)]
  | (k', v') :: rest => if k' = k then (k, v) :: rest else (k', v') :: JSMap.set rest k v

/-! ## Batch loop (`server.js` lines 289-321) -/

/-- An element of `items`: `{ id, title, url }`. -/
structure Item where
  id : JSString
  title : Option JSString
  url : Option JSString

/-- How the promise returned by `runYtdlp` settles (lines 146-179): rejected
with an error message, or resolved after exit code 0, `token` being the
`nanoid(8)` drawn at line 148. -/
inductive RunOutcome where
  | rejected (message : JSString)
  | resolved (token : JSString)

/-- What the outside world contributes to one pass of the loop: the settling
of the runner, the directory listing read at line 190, the answer of
`existsSync` at line 298 and the clock reading of line 319. -/
structure PassEnv where
  run : RunOutcome
  listing : List JSString
  existsSync : JSString → Bool
  now : Nat

/-- What `archive.append` is given as its first argument: a read stream on a
file, or a text. -/
inductive EntrySource where
  | file (path : JSString)
  | text (body : JSString)

/-- One `archive.append(source, { name })`. -/
structure Entry where
  name : JSString
  source : EntrySource

/-- A number in a template literal: its decimal digits. -/
def numToString (n : Nat) : JSString := (Nat.toDigits 10 n).map Char.toNat

/-- The template of line 149 joined to the output directory: the `pattern`
the runner resolves with. -/
def outputPattern (outDir token : JSString) : JSString :=
  join outDir (token ++ ascii ".%(title)s.%(ext)s")

/-- Lines 297-298: the located file, when the runner resolved and
`filePath && existsSync(filePath)` holds; with it the runner's `pattern`. -/
def locatedFile (sessionDir : JSString) (env : PassEnv) : Option (JSString × JSString) :=
  match env.run with
  | RunOutcome.rejected _ => none
  | RunOutcome.resolved token =>
    let pattern := outputPattern sessionDir token
    match findDownloadedFile env.listing sessionDir pattern with
    | none => none
    | some filePath => if env.existsSync filePath then some (filePath, pattern) else none

/-- Lines 299-301: the entry name before disambiguation,
`sanitizeFilename(title) + ext`, with `title = it.title || extract...`. -/
def entryName (it : Item) (filePath pattern : JSString) : JSString :=
  let ext := extname filePath
  let title :=
    match it.title with
    | none => extractOriginalTitleFromSavedName filePath pattern
    | some [] => extractOriginalTitleFromSavedName filePath pattern
    | some t => t
  sanitizeFilename (some title) ++ ext

/-- The name an item resolves to, when its retrieval succeeded. -/
def resolvedName (sessionDir : JSString) (it : Item) (env : PassEnv) : Option JSString :=
  (locatedFile sessionDir env).map (fun fp => entryName it fp.1 fp.2)

/-- Lines 306-308: the renamed entry, `b + " (" + count + ")" + e`. -/
def renamed (name : JSString) (count : Nat) : JSString :=
  stripExtension name ++ ascii " (" ++ numToString count ++ ascii ")" ++ extname name

/-- Lines 302-311: the Name Collision Table after the name was looked up, and
the name the entry is written under.  Only `name` itself is ever recorded in
`used`, never the renamed form. -/
def disambiguate (used : JSMap JSString Nat) (name : JSString) :
    JSMap JSString Nat × JSString :=
  if JSMap.has used name then
    let count := (JSMap.get used name).getD 0 + 1
    (JSMap.set used name count, renamed name count)
  else (JSMap.set used name 0, name)

/-- The name of a diagnostic entry, line 319. -/
def errorEntryName (now : Nat) : JSString :=
  ascii "erro-" ++ numToString now ++ ascii ".txt"

/-- The diagnostic text of line 318. -/
def errorEntryBody (message : JSString) : JSString :=
  ascii "Falha ao baixar um item: " ++ message

/-- One pass of the loop body, lines 293-320: the new Name Collision Table
and the entry appended to the archive, if any.  A rejected runner lands in
the `catch` of line 317; a resolved runner with no located file appends
nothing (the `if` of line 298 has no `else`).  The calls of lines 297-315 are
taken not to throw. -/
def loopBody (sessionDir : JSString) (used : JSMap JSString Nat) (it : Item)
    (env : PassEnv) : JSMap JSString Nat × Option Entry :=
  match env.run with
  | RunOutcome.rejected message =>
    (used, some ⟨errorEntryName env.now, EntrySource.text (errorEntryBody message)⟩)
  | RunOutcome.resolved _ =>
    match locatedFile sessionDir env with
    | none => (used, none)
    | some (filePath, pattern) =>
      let r := disambiguate used (entryName it filePath pattern)
      (r.1, some ⟨r.2, EntrySource.file filePath⟩)

/-- The loop of lines 291-321 run to the end of the item list with the
cancellation flag never set: for each item, in order, what its pass appended. -/
def loopTrace (sessionDir : JSString) :
    JSMap JSString Nat → List (Item × PassEnv) → List (Option Entry)
  | _, [] => []
  | used, (it, env) :: rest =>
    let r := loopBody sessionDir used it env
    r.2 :: loopTrace sessionDir r.1 rest

/-- The entries of the archive after the loop, in the order they were
appended; `used` starts as the empty `Map` of line 289. -/
def archiveEntries (sessionDir : JSString) (batch : List (Item × PassEnv)) : List Entry :=
  (loopTrace sessionDir [] batch).reduceOption

/-- Whether the retrieval of an item failed: the runner rejected, or no
output file was located. -/
def retrievalFailed (sessionDir : JSString) (env : PassEnv) : Bool :=
  (locatedFile sessionDir env).isNone

/-! ## Job registry (`server.js` lines 30-46) -/

/-- The status strings the server stores, and `unknown`, which only a poll
answers. -/
inductive JobStatus where
  | running | done | error | cancelled | unknown
  deriving DecidableEq, Repr

/-- The value stored for a job: `{ status, updatedAt }`. -/
structure JobMeta where
  status : JobStatus
  updatedAt : Nat
  deriving DecidableEq, Repr

/-- The process-wide `jobs` map of line 30. -/
abbrev Registry := JSMap JSString JobMeta

/-- The scan of lines 35-37.  `clock k` is the value of the `k`-th call of
`Date.now()` made by the enclosing `setJobStatus`; the entry visited deletes
itself when it is more than 600000 ms old. -/
def evictStale (clock : Nat → Nat) : Nat → Registry → Registry
  | _, [] => []
  | k, (id, m) :: rest =>
    if (clock k : Int) - (m.updatedAt : Int) > 10 * 60 * 1000 then
      evictStale clock (k + 1) rest
    else (id, m) :: evictStale clock (k + 1) rest

/-- The function `setJobStatus` of lines 32-38.  `!jobId` holds for an absent
identifier and for the empty string. -/
def setJobStatus (jobs : Registry) (jobId : Option JSString) (status : JobStatus)
    (clock : Nat → Nat) : Registry :=
  match jobId with
  | none => jobs
  | some [] => jobs
  | some (c :: cs) =>
    evictStale clock 1 (JSMap.set jobs (c :: cs) ⟨status, clock 0⟩)

/-- Lines 43-45: the status a poll answers for `jobId`, `unknown` when the
registry has no entry for it. -/
def jobStatus (jobs : Registry) (jobId : JSString) : JobStatus :=
  match JSMap.get jobs jobId with
  | none => JobStatus.unknown
  | some m => m.status

/-- What the route `GET /api/job-status` answers: status 400, or a status. -/
inductive PollResponse where
  | badRequest
  | status (s : JobStatus)
  deriving DecidableEq, Repr

/-- The handler of `GET /api/job-status`, lines 40-46. -/
def pollJobStatus (jobs : Registry) (jobId : Option JSString) : PollResponse :=
  match jobId with
  | none => PollResponse.badRequest
  | some [] => PollResponse.badRequest
  | some (c :: cs) => PollResponse.status (jobStatus jobs (c :: cs))

/-! ## Batch request as a transition system (`server.js` lines 260-331) -/

/-- The state one batch request works on: the shared registry and the
request's own variables. -/
structure BatchState where
  jobs : Registry
  jobId : Option JSString
  cancelled : Bool
  activeChildren : List Nat
  terminated : List Nat
  archiveAborted : Bool
  archiveFinalized : Bool
  sessionDirRemoved : Bool
  used : JSMap JSString Nat
  archive : List Entry

/-- The steps that can run once the listeners are registered.  Each step that
can write the registry carries the clock of that write. -/
inductive Step where
  | spawn (child : Nat)
  | childClosed (child : Nat)
  | pass (sessionDir : JSString) (it : Item) (env : PassEnv) (clock : Nat → Nat)
  | resume (sessionDir : JSString) (it : Item) (env : PassEnv) (clock : Nat → Nat)
  | afterLoop
  | close (clock : Nat → Nat)
  | finish (clock : Nat → Nat)
  | setupError (clock : Nat → Nat)
  | registryWrite (jobId : Option JSString) (status : JobStatus) (clock : Nat → Nat)

/-- The call `killProcessTree(child)` of lines 181-185, as far as the batch
sees it: the handle is added to the record of handles given to the
terminator.  The signals it then sends (`SIGTERM`, and `SIGKILL` two seconds
later, unless `child.killed`) act on the process, outside this state. -/
def killProcessTree (terminated : List Nat) (child : Nat) : List Nat :=
  terminated ++ [child]

/-- The listener `onClose` of lines 274-280. -/
def onClose (s : BatchState) (clock : Nat → Nat) : BatchState :=
  { s with
    cancelled := true
    terminated := s.activeChildren.foldl killProcessTree s.terminated
    archiveAborted := true
    sessionDirRemoved := true
    jobs := setJobStatus s.jobs s.jobId JobStatus.cancelled clock }

/-- The `finish` listener of lines 282-287. -/
def onFinish (s : BatchState) (clock : Nat → Nat) : BatchState :=
  if s.cancelled then s
  else { s with
    sessionDirRemoved := true
    jobs := setJobStatus s.jobs s.jobId JobStatus.done clock }

/-- The outer `catch` of lines 326-331. -/
def onSetupError (s : BatchState) (clock : Nat → Nat) : BatchState :=
  { s with
    sessionDirRemoved := true
    jobs := setJobStatus s.jobs s.jobId JobStatus.error clock }

/-- Whether `archive.append` raises: on an archive that was aborted or
finalized archiver emits an `error` event, which the listener of line 266
rethrows to the caller of `append`. -/
def archiveClosed (s : BatchState) : Bool := s.archiveAborted || s.archiveFinalized

/-- The message of the error `readdirSync` throws at line 190 when the session
directory is gone. -/
def scandirError (sessionDir : JSString) : JSString :=
  ascii "ENOENT: no such file or directory, scandir " ++ [39] ++ sessionDir ++ [39]

/-- The message of the error archiver emits for an `append` on a closed
archive. -/
def queueClosedError : JSString := ascii "queue closed"

/-- The `catch` of lines 317-320 for an error with the given message: the
diagnostic entry is appended, or, when that `append` raises, the error leaves
the loop and the outer `catch` of lines 326-331 runs. -/
def appendDiagnostic (s : BatchState) (now : Nat) (message : JSString)
    (clock : Nat → Nat) : BatchState :=
  if archiveClosed s then onSetupError s clock
  else { s with archive :=
    s.archive ++ [⟨errorEntryName now, EntrySource.text (errorEntryBody message)⟩] }

/-- Lines 297-320 of one pass, which run once the runner has settled and do
not read the cancellation flag again.  A rejected runner lands in the `catch`
of line 317, and so does a resolved one when `readdirSync` throws on the
removed session directory or when the `append` of line 315 raises (the Name
Collision Table was written before, lines 302-311). -/
def resumePass (s : BatchState) (sessionDir : JSString) (it : Item) (env : PassEnv)
    (clock : Nat → Nat) : BatchState :=
  match env.run with
  | RunOutcome.rejected message => appendDiagnostic s env.now message clock
  | RunOutcome.resolved _ =>
    if s.sessionDirRemoved then appendDiagnostic s env.now (scandirError sessionDir) clock
    else
      match locatedFile sessionDir env with
      | none => s
      | some (filePath, pattern) =>
        let r := disambiguate s.used (entryName it filePath pattern)
        if archiveClosed s then
          appendDiagnostic { s with used := r.1 } env.now queueClosedError clock
        else { s with used := r.1, archive := s.archive ++ [⟨r.2, EntrySource.file filePath⟩] }

/-- One step of the batch.  `pass` is one whole turn of the loop from its
head (line 292, which leaves the loop when the flag is set); `resume` is the
part of a turn after the `await` of line 294, for a turn that was in flight
when another step ran; `spawn` and `childClosed` are the callbacks of line
295; `afterLoop` is line 323; `setupError` is the outer `catch` reached from
the set-up lines 261-270; `registryWrite` is a `setJobStatus` made by another
request on the shared map. -/
def step (s : BatchState) : Step → BatchState
  | Step.spawn child =>
    { s with activeChildren :=
        if child ∈ s.activeChildren then s.activeChildren else s.activeChildren ++ [child] }
  | Step.childClosed child =>
    { s with activeChildren := s.activeChildren.filter (fun c => c != child) }
  | Step.pass sessionDir it env clock =>
    if s.cancelled then s else resumePass s sessionDir it env clock
  | Step.resume sessionDir it env clock => resumePass s sessionDir it env clock
  | Step.afterLoop =>
    if s.cancelled then s else { s with archiveFinalized := true }
  | Step.close clock => onClose s clock
  | Step.finish clock => onFinish s clock
  | Step.setupError clock => onSetupError s clock
  | Step.registryWrite jobId status clock =>
    { s with jobs := setJobStatus s.jobs jobId status clock }

/-- The steps of the batch itself: every step but the writes of other
requests. -/
def Step.isOwn : Step → Bool
  | Step.registryWrite _ _ _ => false
  | _ => true

/-- The statuses `done`, `error` and `cancelled`. -/
def JobStatus.isTerminal : JobStatus → Bool
  | JobStatus.done => true
  | JobStatus.error => true
  | JobStatus.cancelled => true
  | _ => false

/-- A sequence of steps, run in order. -/
def run (s : BatchState) (steps : List Step) : BatchState :=
  steps.foldl step s

/-- The state in which the listeners were just registered (line 287): the job
was set to `running` at line 261, nothing else has happened. -/
def initialState (jobs : Registry) (jobId : Option JSString) (clock : Nat → Nat) :
    BatchState :=
  { jobs := setJobStatus jobs jobId JobStatus.running clock
    jobId := jobId
    cancelled := false
    activeChildren := []
    terminated := []
    archiveAborted := false
    archiveFinalized := false
    sessionDirRemoved := false
    used := []
    archive := [] }

/-- How many items before position `i` of the batch resolved to `name`. -/
def priorCollisions (sessionDir : JSString) (batch : List (Item × PassEnv)) (i : Nat)
    (name : JSString) : Nat :=
  (batch.take i).countP (fun p => decide (resolvedName sessionDir p.1 p.2 = some name))

/-- The name of the entry that the pass for item `i` appended, if it appended
one. -/
def writtenName (sessionDir : JSString) (batch : List (Item × PassEnv)) (i : Nat) :
    Option JSString :=
  ((loopTrace sessionDir [] batch)[i]?).bind (fun o => o.map Entry.name)

/-! ## Predicates used in the statements -/

/-- What every code unit of a sanitized name satisfies: it is none of the
replaced characters, and if it is whitespace it is the plain space. -/
def isKept (c : Nat) : Prop := isHostile c = false ∧ (isWhitespace c = true → c = 32)

/-- Whether `replace(/\s+/g, ' ')` has nothing to do: every whitespace code
unit is a plain space that does not follow another whitespace code unit
(`inRun` tells whether the code unit before the text was whitespace). -/
def isNormal : Bool → JSString → Bool
  | _, [] => true
  | inRun, c :: cs =>
    if isWhitespace c then (c == 32 && !inRun && isNormal true cs) else isNormal false cs

/-- The number of earlier uses the Name Collision Table records for a name. -/
def recorded (used : JSMap JSString Nat) (name : JSString) : Nat :=
  match JSMap.get used name with
  | none => 0
  | some c => c + 1

/-- The statuses a cancelled batch can leave for its job. -/
def afterCancel (st : JobStatus) : Prop :=
  st = JobStatus.cancelled ∨ st = JobStatus.error ∨ st = JobStatus.unknown

/-! ## Sample inputs -/

/-- A session directory, `/tmp/yt-abcdef`. -/
def sampleDir : JSString := ascii "/tmp/yt-abcdef"

/-- An item with the given display title. -/
def sampleItem (title : String) : Item :=
  { id := ascii "dQw4w9WgXcQ", title := some (ascii title), url := none }

/-- A pass whose runner resolved with the given token and left the given
files in the session directory. -/
def sampleResolved (token : String) (files : List String) : PassEnv :=
  { run := RunOutcome.resolved (ascii token)
    listing := files.map ascii
    existsSync := fun _ => true
    now := 1700000000000 }

/-- A pass whose runner rejected, the clock of line 319 reading `now`. -/
def sampleRejected (now : Nat) : PassEnv :=
  { run := RunOutcome.rejected (ascii "yt-dlp falhou (1): ERROR")
    listing := []
    existsSync := fun _ => false
    now := now }

/-- Three items that all succeed: two titled `a`, one titled `a (1)`. -/
def sampleClash : List (Item × PassEnv) :=
  [ (sampleItem "a", sampleResolved "tok00001" ["tok00001.a.mp4"]),
    (sampleItem "a", sampleResolved "tok00002" ["tok00002.a.mp4"]),
    (sampleItem "a (1)", sampleResolved "tok00003" ["tok00003.a (1).mp4"]) ]

/-- One item whose runner exits with code 0 without leaving a file. -/
def sampleNoFile : List (Item × PassEnv) :=
  [ (sampleItem "a", sampleResolved "tok00001" []) ]

/-- Whether a pass appends an entry: the runner rejected (diagnostic entry)
or the output file was located (file entry). -/
def appendsEntry (sessionDir : JSString) (env : PassEnv) : Bool :=
  match env.run with
  | RunOutcome.rejected _ => true
  | RunOutcome.resolved _ => (locatedFile sessionDir env).isSome

/-- The keys of a registry are pairwise distinct, as the keys of a `Map` are. -/
def keysDistinct (r : Registry) : Prop := (r.map Prod.fst).Nodup

/-- A registry holding a job last written at time 1000 and one last written
at time 700000. -/
def sampleRegistry : Registry :=
  [(ascii "old", ⟨JobStatus.done, 1000⟩), (ascii "new", ⟨JobStatus.running, 700000⟩)]

/-- A batch for the job `j`, its listeners just registered, on an empty
registry at time 1000. -/
def sampleStart : BatchState := initialState [] (some (ascii "j")) (fun _ => 1000)

/-- A client disconnect while the runner of the first item is in flight: the
child was spawned, the close listener runs, the killed child closes, and the
rejected runner resumes the pass, whose diagnostic `archive.append` on the
aborted archive raises into the outer `catch`. -/
def sampleDisconnect : List Step :=
  [ Step.spawn 1,
    Step.close (fun _ => 2000),
    Step.childClosed 1,
    Step.resume sampleDir (sampleItem "a") (sampleRejected 2001) (fun _ => 2002) ]

/-- A batch of one item that completes: the pass appends the file, the
archive is finalized and the response finishes. -/
def sampleCompleted : List Step :=
  [ Step.spawn 1,
    Step.childClosed 1,
    Step.resume sampleDir (sampleItem "a") (sampleResolved "tok00001" ["tok00001.a.mp4"])
      (fun _ => 1500),
    Step.afterLoop,
    Step.finish (fun _ => 2000) ]

/-! ## Facts about the sanitizer -/

theorem isKept_of_mem_replaceHostile {s : JSString} {c : Nat}
    (h : c ∈ replaceHostile s) : isHostile c = false := by
  unfold replaceHostile at h
  obtain ⟨a, -, rfl⟩ := List.mem_map.1 h
  by_cases ha : isHostile a = true
  · simp [ha]; decide
  · simp [ha]

theorem mem_collapseAux {b : Bool} {s : JSString} {c : Nat}
    (h : c ∈ collapseAux b s) : c = 32 ∨ (c ∈ s ∧ isWhitespace c = false) := by
  induction s generalizing b with
  | nil => simp [collapseAux] at h
  | cons a s ih =>
    unfold collapseAux at h
    by_cases ha : isWhitespace a = true
    · simp only [ha, if_true] at h
      cases b with
      | true =>
        simp only [if_true] at h
        rcases ih h with h1 | ⟨h1, h2⟩
        · exact Or.inl h1
        · exact Or.inr ⟨List.mem_cons_of_mem _ h1, h2⟩
      | false =>
        simp only [Bool.false_eq_true, if_false, List.mem_cons] at h
        rcases h with h | h
        · exact Or.inl h
        · rcases ih h with h1 | ⟨h1, h2⟩
          · exact Or.inl h1
          · exact Or.inr ⟨List.mem_cons_of_mem _ h1, h2⟩
    · simp only [ha, Bool.false_eq_true, if_false, List.mem_cons] at h
      rcases h with h | h
      · subst h
        exact Or.inr ⟨List.mem_cons_self _ _, by simpa using ha⟩
      · rcases ih h with h1 | ⟨h1, h2⟩
        · exact Or.inl h1
        · exact Or.inr ⟨List.mem_cons_of_mem _ h1, h2⟩

theorem trim_subset {s : JSString} {c : Nat} (h : c ∈ trim s) : c ∈ s := by
  unfold trim at h
  exact (List.dropWhile_sublist _).subset ((List.rdropWhile_prefix _ _).subset h)

theorem truncate140_subset {s : JSString} {c : Nat} (h : c ∈ truncate140 s) : c ∈ s := by
  unfold truncate140 at h
  split at h
  · exact List.mem_of_mem_take h
  · exact h

theorem truncate140_length (s : JSString) : (truncate140 s).length ≤ 140 := by
  unfold truncate140
  split
  · simp [List.length_take]
  · omega

theorem isKept_of_mem_cleaned {s : JSString} {c : Nat} (h : c ∈ cleaned s) : isKept c := by
  unfold cleaned collapseWhitespace at h
  rcases mem_collapseAux (trim_subset h) with h1 | ⟨h1, h2⟩
  · subst h1
    exact ⟨by decide, fun _ => rfl⟩
  · exact ⟨isKept_of_mem_replaceHostile h1, fun hw => by simp [h2] at hw⟩

theorem isKept_of_mem_defaultName {c : Nat} (h : c ∈ defaultName) : isKept c := by
  simp only [defaultName, List.mem_cons, List.mem_singleton, List.not_mem_nil, or_false] at h
  rcases h with h | h | h | h | h | h | h | h <;> subst h <;> exact ⟨by decide, by decide⟩

theorem isKept_of_mem_sanitizeFilename {name : Option JSString} {c : Nat}
    (h : c ∈ sanitizeFilename name) : isKept c := by
  unfold sanitizeFilename at h
  split at h
  · exact isKept_of_mem_defaultName h
  · exact isKept_of_mem_defaultName h
  · simp only at h
    split at h
    · exact isKept_of_mem_defaultName h
    · exact isKept_of_mem_cleaned (truncate140_subset h)

theorem not_hostile_iff {c : Nat} (h : isHostile c = false) :
    c ≠ 47 ∧ c ≠ 58 ∧ c ≠ 42 ∧ c ≠ 63 ∧ c ≠ 34 ∧ c ≠ 60 ∧ c ≠ 62 ∧ c ≠ 124 ∧
      c ≠ 9 ∧ c ≠ 10 ∧ c ≠ 13 := by
  simp only [isHostile, Bool.or_eq_false_iff, beq_eq_false_iff_ne, ne_eq] at h
  obtain ⟨⟨⟨⟨⟨⟨⟨⟨⟨⟨a1, a2⟩, a3⟩, a4⟩, a5⟩, a6⟩, a7⟩, a8⟩, a9⟩, a10⟩, a11⟩ := h
  exact ⟨a1, a2, a3, a4, a5, a6, a7, a8, a11, a9, a10⟩

theorem sanitizeFilename_ne_nil (name : Option JSString) : sanitizeFilename name ≠ [] := by
  unfold sanitizeFilename
  split
  · decide
  · decide
  · simp only
    split
    · decide
    · assumption

theorem sanitizeFilename_length (name : Option JSString) :
    (sanitizeFilename name).length ≤ 140 := by
  unfold sanitizeFilename
  split
  · decide
  · decide
  · simp only
    split
    · decide
    · exact truncate140_length _

/-! ## Names that a second sanitisation leaves alone -/

theorem collapseAux_of_isNormal {b : Bool} {s : JSString} (h : isNormal b s = true) :
    collapseAux b s = s := by
  induction s generalizing b with
  | nil => rfl
  | cons a s ih =>
    unfold isNormal at h
    unfold collapseAux
    by_cases ha : isWhitespace a = true
    · simp only [ha, if_true, Bool.and_eq_true, beq_iff_eq, Bool.not_eq_true'] at h
      obtain ⟨⟨h1, h2⟩, h3⟩ := h
      subst h2
      subst h1
      simp [ha, ih h3]
    · simp only [ha, Bool.false_eq_true, if_false] at h
      simp [ha, ih h]

theorem isNormal_collapseAux (b : Bool) (s : JSString) :
    isNormal b (collapseAux b s) = true := by
  induction s generalizing b with
  | nil => rfl
  | cons a s ih =>
    unfold collapseAux
    by_cases ha : isWhitespace a = true
    · cases b with
      | true => simpa [ha] using ih true
      | false =>
        have h32 : isWhitespace 32 = true := by decide
        simp only [ha, if_true, Bool.false_eq_true, if_false]
        unfold isNormal
        simp [h32, ih true]
    · simp only [ha, Bool.false_eq_true, if_false]
      unfold isNormal
      simp [ha, ih false]

theorem isNormal_weaken {s : JSString} (h : isNormal true s = true) :
    isNormal false s = true := by
  cases s with
  | nil => rfl
  | cons a s =>
    unfold isNormal at h ⊢
    by_cases ha : isWhitespace a = true
    · simp [ha] at h
    · simpa [ha] using h

theorem isNormal_tail {b : Bool} {a : Nat} {s : JSString}
    (h : isNormal b (a :: s) = true) : isNormal false s = true := by
  unfold isNormal at h
  by_cases ha : isWhitespace a = true
  · simp only [ha, if_true, Bool.and_eq_true] at h
    exact isNormal_weaken h.2
  · simpa [ha] using h

theorem isNormal_dropWhile (p : Nat → Bool) {s : JSString}
    (h : isNormal false s = true) : isNormal false (s.dropWhile p) = true := by
  induction s with
  | nil => rfl
  | cons a s ih =>
    rw [List.dropWhile_cons]
    split
    · exact ih (isNormal_tail h)
    · exact h

theorem isNormal_of_append {b : Bool} {s t : JSString}
    (h : isNormal b (s ++ t) = true) : isNormal b s = true := by
  induction s generalizing b with
  | nil => cases b <;> rfl
  | cons a s ih =>
    rw [List.cons_append] at h
    unfold isNormal at h ⊢
    by_cases ha : isWhitespace a = true
    · simp only [ha, if_true, Bool.and_eq_true] at h ⊢
      exact ⟨h.1, ih h.2⟩
    · simp only [ha, Bool.false_eq_true, if_false] at h ⊢
      exact ih h

theorem isNormal_of_initial {b : Bool} {s t : JSString} (hp : s <+: t)
    (h : isNormal b t = true) : isNormal b s = true := by
  obtain ⟨r, rfl⟩ := hp
  exact isNormal_of_append h

theorem isNormal_append {b : Bool} {s e : JSString} (h : isNormal b s = true)
    (he : ∀ c ∈ e, isWhitespace c = false) : isNormal b (s ++ e) = true := by
  induction s generalizing b with
  | nil =>
    rw [List.nil_append]
    clear h
    induction e generalizing b with
    | nil => cases b <;> rfl
    | cons a e ih =>
      unfold isNormal
      have ha := he a (List.mem_cons_self _ _)
      simp only [ha, Bool.false_eq_true, if_false]
      exact ih (fun c hc => he c (List.mem_cons_of_mem _ hc))
  | cons a s ih =>
    rw [List.cons_append]
    unfold isNormal at h ⊢
    by_cases ha : isWhitespace a = true
    · simp only [ha, if_true, Bool.and_eq_true] at h ⊢
      exact ⟨h.1, ih h.2⟩
    · simp only [ha, Bool.false_eq_true, if_false] at h ⊢
      exact ih h

theorem head_dropWhile_false (p : Nat → Bool) {s : JSString} {a : Nat} {r : JSString}
    (h : s.dropWhile p = a :: r) : p a = false := by
  induction s with
  | nil => simp at h
  | cons x s ih =>
    rw [List.dropWhile_cons] at h
    split at h
    · exact ih h
    · rename_i hx
      simp only [List.cons.injEq] at h
      rw [← h.1]
      simpa using hx

theorem trim_initial (s : JSString) : trim s <+: s.dropWhile isWhitespace :=
  List.rdropWhile_prefix _ _

theorem head_trim {s : JSString} {a : Nat} {r : JSString} (h : trim s = a :: r) :
    isWhitespace a = false := by
  obtain ⟨t, ht⟩ := trim_initial s
  rw [h] at ht
  exact head_dropWhile_false isWhitespace ht.symm

theorem isNormal_cleaned (s : JSString) : isNormal false (cleaned s) = true := by
  unfold cleaned collapseWhitespace
  exact isNormal_of_initial (trim_initial _)
    (isNormal_dropWhile _ (isNormal_collapseAux false _))

theorem truncate140_initial (s : JSString) : truncate140 s <+: s := by
  unfold truncate140
  split
  · exact List.take_prefix _ _
  · exact List.prefix_refl _

/-- A sanitized name needs no whitespace collapsing and starts with a code
unit that is not whitespace. -/
theorem sanitizeFilename_shape (name : Option JSString) :
    isNormal false (sanitizeFilename name) = true ∧
    ∃ a r, sanitizeFilename name = a :: r ∧ isWhitespace a = false := by
  have hd : isNormal false defaultName = true ∧
      ∃ a r, defaultName = a :: r ∧ isWhitespace a = false :=
    ⟨by decide, 100, _, rfl, by decide⟩
  unfold sanitizeFilename
  split
  · exact hd
  · exact hd
  · rename_i c cs
    simp only
    split
    · exact hd
    · rename_i hne
      refine ⟨isNormal_of_initial (truncate140_initial _) (isNormal_cleaned _), ?_⟩
      obtain ⟨t, ht⟩ := truncate140_initial (cleaned (c :: cs))
      cases hs : truncate140 (cleaned (c :: cs)) with
      | nil => exact absurd hs hne
      | cons a r =>
        refine ⟨a, r, rfl, ?_⟩
        rw [hs] at ht
        exact head_trim ht.symm

theorem replaceHostile_eq_self {s : JSString} (h : ∀ c ∈ s, isHostile c = false) :
    replaceHostile s = s := by
  unfold replaceHostile
  induction s with
  | nil => rfl
  | cons a s ih =>
    have ha := h a (List.mem_cons_self _ _)
    simp only [List.map_cons, ha, Bool.false_eq_true, if_false, List.cons.injEq, true_and]
    exact ih (fun c hc => h c (List.mem_cons_of_mem _ hc))

theorem trim_eq_self {a : Nat} {r : JSString} (ha : isWhitespace a = false)
    (hl : ∀ h : a :: r ≠ [], isWhitespace ((a :: r).getLast h) = false) :
    trim (a :: r) = a :: r := by
  unfold trim
  have h1 : List.dropWhile isWhitespace (a :: r) = a :: r := by
    rw [List.dropWhile_cons]; simp [ha]
  rw [h1]
  exact List.rdropWhile_eq_self_iff.2 (fun h => by simp [hl h])

/-- A text that is already clean, starts and ends with a code unit that is
not whitespace and has at most 140 code units is returned unchanged. -/
theorem sanitizeFilename_fixed {a : Nat} {r : JSString}
    (hk : ∀ c ∈ a :: r, isHostile c = false)
    (hn : isNormal false (a :: r) = true)
    (ha : isWhitespace a = false)
    (hl : ∀ h : a :: r ≠ [], isWhitespace ((a :: r).getLast h) = false)
    (hlen : (a :: r).length ≤ 140) :
    sanitizeFilename (some (a :: r)) = a :: r := by
  have hc : cleaned (a :: r) = a :: r := by
    unfold cleaned collapseWhitespace
    rw [replaceHostile_eq_self hk, collapseAux_of_isNormal hn, trim_eq_self ha hl]
  have ht : truncate140 (a :: r) = a :: r := by
    unfold truncate140
    rw [if_neg (by omega)]
  unfold sanitizeFilename
  simp only [hc, ht]
  simp

/-! ## Facts about `Map`, paths and the loop -/

theorem JSMap.get_set_self {κ ν : Type} [DecidableEq κ] (m : JSMap κ ν) (k : κ) (v : ν) :
    JSMap.get (JSMap.set m k v) k = some v := by
  induction m with
  | nil => simp [JSMap.set, JSMap.get]
  | cons p m ih =>
    obtain ⟨k', v'⟩ := p
    unfold JSMap.set
    by_cases h : k' = k
    · simp [h, JSMap.get]
    · simp [h, JSMap.get, ih]

theorem JSMap.get_set_other {κ ν : Type} [DecidableEq κ] (m : JSMap κ ν) (k k' : κ) (v : ν)
    (hk : k' ≠ k) : JSMap.get (JSMap.set m k v) k' = JSMap.get m k' := by
  induction m with
  | nil => simp [JSMap.set, JSMap.get, Ne.symm hk]
  | cons p m ih =>
    obtain ⟨k₀, v₀⟩ := p
    unfold JSMap.set
    by_cases h : k₀ = k
    · subst h
      simp [JSMap.get, Ne.symm hk]
    · simp only [h, if_false, JSMap.get, ih]

theorem takeWhile_append_stop (p : Nat → Bool) (s : JSString) (a : Nat) (t : JSString)
    (hs : ∀ c ∈ s, p c = true) (ha : p a = false) :
    (s ++ a :: t).takeWhile p = s := by
  induction s with
  | nil => simp [List.takeWhile_cons, ha]
  | cons x s ih =>
    have hx := hs x (List.mem_cons_self _ _)
    rw [List.cons_append, List.takeWhile_cons, if_pos hx,
      ih (fun c hc => hs c (List.mem_cons_of_mem _ hc))]

theorem stripExtension_append (base rest : JSString) (hne : rest ≠ []) (hdot : 46 ∉ rest) :
    stripExtension (base ++ 46 :: rest) = base := by
  induction base with
  | nil => simp [stripExtension, hne, hdot]
  | cons a base ih =>
    rw [List.cons_append]
    unfold stripExtension
    have : ¬ (a = 46 ∧ base ++ 46 :: rest ≠ [] ∧ 46 ∉ base ++ 46 :: rest) := by
      rintro ⟨-, -, h⟩
      exact h (List.mem_append_right _ (List.mem_cons_self _ _))
    rw [if_neg this, ih]

theorem dropWhile_append_stop (p : Nat → Bool) (s : JSString) (a : Nat) (t : JSString)
    (hs : ∀ c ∈ s, p c = true) (ha : p a = false) :
    (s ++ a :: t).dropWhile p = a :: t := by
  induction s with
  | nil => simp [List.dropWhile_cons, ha]
  | cons x s ih =>
    have hx := hs x (List.mem_cons_self _ _)
    rw [List.cons_append, List.dropWhile_cons, if_pos hx,
      ih (fun c hc => hs c (List.mem_cons_of_mem _ hc))]

theorem basename_eq_self {x : JSString} (h : 47 ∉ x) : basename x = x := by
  unfold basename
  have h1 : x.reverse.dropWhile (fun c => c == 47) = x.reverse := by
    cases hx : x.reverse with
    | nil => rfl
    | cons a r =>
      have ha : a ∈ x := by
        rw [← List.mem_reverse, hx]; exact List.mem_cons_self _ _
      have : a ≠ 47 := fun e => h (e ▸ ha)
      simp [List.dropWhile_cons, this]
  have h2 : x.reverse.takeWhile (fun c => c != 47) = x.reverse := by
    rw [List.takeWhile_eq_self_iff]
    intro c hc
    have : c ≠ 47 := fun e => h (e ▸ List.mem_reverse.1 hc)
    simpa using this
  rw [h1, h2, List.reverse_reverse]

theorem not_mem_basename (p : JSString) : 47 ∉ basename p := by
  unfold basename
  intro h
  have h1 := List.mem_takeWhile_imp (List.mem_reverse.1 h)
  simp at h1

theorem not_mem_extname (p : JSString) : 47 ∉ extname p := by
  unfold extname
  simp only
  split
  · simp
  · simp
  · split
    · simp
    · intro h
      rcases List.mem_cons.1 h with h | h
      · omega
      · have h1 := (List.takeWhile_sublist _).subset (List.mem_reverse.1 h)
        exact not_mem_basename p (List.mem_reverse.1 h1)

theorem extname_append (base rest : JSString) (hb : base ≠ []) (hne : rest ≠ [])
    (hdot : 46 ∉ rest) (hslash : 47 ∉ base ++ 46 :: rest) :
    extname (base ++ 46 :: rest) = 46 :: rest := by
  have hrev : (base ++ 46 :: rest).reverse = rest.reverse ++ 46 :: base.reverse := by simp
  have hp : ∀ c ∈ rest.reverse, (fun c => c != 46) c = true := by
    intro c hc
    have : c ≠ 46 := fun e => hdot (e ▸ List.mem_reverse.1 hc)
    simpa using this
  have ht : (base ++ 46 :: rest).reverse.takeWhile (fun c => c != 46) = rest.reverse := by
    rw [hrev]; exact takeWhile_append_stop _ _ _ _ hp (by decide)
  have hd : (base ++ 46 :: rest).reverse.dropWhile (fun c => c != 46) = 46 :: base.reverse := by
    rw [hrev]; exact dropWhile_append_stop _ _ _ _ hp (by decide)
  have hl : base ++ 46 :: rest ≠ [46, 46] := by
    intro e
    have := congrArg List.length e
    have h1 : 0 < base.length := List.length_pos.2 hb
    have h2 : 0 < rest.length := List.length_pos.2 hne
    simp at this
    omega
  unfold extname
  simp only [basename_eq_self hslash, ht, hd]
  cases hbr : base.reverse with
  | nil => exact absurd (List.reverse_eq_nil_iff.1 hbr) hb
  | cons b t => simp [hl]

/-- Lines 306-308 on a name with a proper extension: the counter goes between
the text before the last dot and the extension. -/
theorem renamed_append (base rest : JSString) (count : Nat) (hb : base ≠ [])
    (hne : rest ≠ []) (hdot : 46 ∉ rest) (hslash : 47 ∉ base ++ 46 :: rest) :
    renamed (base ++ 46 :: rest) count
      = base ++ ascii " (" ++ numToString count ++ ascii ")" ++ 46 :: rest := by
  unfold renamed
  rw [stripExtension_append base rest hne hdot, extname_append base rest hb hne hdot hslash]

theorem not_mem_entryName (it : Item) (filePath pattern : JSString) :
    47 ∉ entryName it filePath pattern := by
  unfold entryName
  simp only [List.mem_append, not_or]
  refine ⟨fun h => ?_, not_mem_extname _⟩
  have := (isKept_of_mem_sanitizeFilename h).1
  revert this
  decide

theorem not_mem_resolvedName {sessionDir : JSString} {it : Item} {env : PassEnv}
    {name : JSString} (h : resolvedName sessionDir it env = some name) : 47 ∉ name := by
  unfold resolvedName at h
  simp only [Option.map_eq_some'] at h
  obtain ⟨fp, -, rfl⟩ := h
  exact not_mem_entryName _ _ _

theorem locatedFile_rejected (sessionDir : JSString) (env : PassEnv) (message : JSString)
    (h : env.run = RunOutcome.rejected message) : locatedFile sessionDir env = none := by
  unfold locatedFile
  rw [h]

theorem loopBody_of_resolved {sessionDir : JSString} {it : Item} {env : PassEnv}
    {name : JSString} (used : JSMap JSString Nat)
    (h : resolvedName sessionDir it env = some name) :
    (loopBody sessionDir used it env).1 = (disambiguate used name).1 ∧
    (loopBody sessionDir used it env).2.map Entry.name = some (disambiguate used name).2 := by
  unfold resolvedName at h
  simp only [Option.map_eq_some'] at h
  obtain ⟨⟨fp, pat⟩, hloc, rfl⟩ := h
  unfold loopBody
  cases hrun : env.run with
  | rejected message => rw [locatedFile_rejected sessionDir env message hrun] at hloc; cases hloc
  | resolved token => simp [hloc]

theorem loopBody_of_unresolved {sessionDir : JSString} {it : Item} {env : PassEnv}
    (used : JSMap JSString Nat) (h : resolvedName sessionDir it env = none) :
    (loopBody sessionDir used it env).1 = used := by
  unfold resolvedName at h
  simp only [Option.map_eq_none'] at h
  unfold loopBody
  cases hrun : env.run with
  | rejected message => rfl
  | resolved token => simp [h]

theorem disambiguate_name (used : JSMap JSString Nat) (name : JSString) :
    (disambiguate used name).2
      = if recorded used name = 0 then name else renamed name (recorded used name) := by
  unfold disambiguate recorded JSMap.has
  cases JSMap.get used name <;> simp

theorem recorded_disambiguate_self (used : JSMap JSString Nat) (name : JSString) :
    recorded (disambiguate used name).1 name = recorded used name + 1 := by
  unfold disambiguate recorded JSMap.has
  cases h : JSMap.get used name <;> simp [JSMap.get_set_self]

theorem recorded_disambiguate_other (used : JSMap JSString Nat) (name other : JSString)
    (h : other ≠ name) :
    recorded (disambiguate used name).1 other = recorded used other := by
  unfold disambiguate recorded JSMap.has
  cases JSMap.get used name <;> simp [JSMap.get_set_other _ _ _ _ h]

/-- The pass for an item that resolves to `name` writes it under `name` when
no earlier item did, and under the renamed form carrying the number of
earlier items otherwise; `used` is the table the loop starts from. -/
theorem loopTrace_name (sessionDir : JSString) (name : JSString)
    (batch : List (Item × PassEnv)) :
    ∀ (used : JSMap JSString Nat) (i : Nat) (it : Item) (env : PassEnv),
      batch[i]? = some (it, env) → resolvedName sessionDir it env = some name →
      ((loopTrace sessionDir used batch)[i]?).bind (fun o => o.map Entry.name)
        = some (if recorded used name + priorCollisions sessionDir batch i name = 0 then name
            else renamed name (recorded used name + priorCollisions sessionDir batch i name)) := by
  induction batch with
  | nil => intro used i it env h; simp at h
  | cons p batch ih =>
    obtain ⟨it₀, env₀⟩ := p
    intro used i it env hi hres
    cases i with
    | zero =>
      simp only [List.getElem?_cons_zero, Option.some.injEq, Prod.mk.injEq] at hi
      obtain ⟨rfl, rfl⟩ := hi
      simp only [loopTrace, List.getElem?_cons_zero, Option.some_bind, priorCollisions,
        List.take_zero, List.countP_nil, Nat.add_zero]
      rw [(loopBody_of_resolved used hres).2, disambiguate_name]
    | succ i =>
      simp only [List.getElem?_cons_succ] at hi
      simp only [loopTrace, List.getElem?_cons_succ]
      rw [ih _ i it env hi hres]
      have hcount : recorded (loopBody sessionDir used it₀ env₀).1 name
            + priorCollisions sessionDir batch i name
          = recorded used name + priorCollisions sessionDir ((it₀, env₀) :: batch) (i + 1) name := by
        unfold priorCollisions
        rw [List.take_succ_cons, List.countP_cons]
        cases h₀ : resolvedName sessionDir it₀ env₀ with
        | none =>
          rw [loopBody_of_unresolved used h₀]
          simp [h₀]
        | some other =>
          rw [(loopBody_of_resolved used h₀).1]
          by_cases ho : other = name
          · subst ho
            rw [recorded_disambiguate_self]
            simp [h₀]
            omega
          · rw [recorded_disambiguate_other _ _ _ (Ne.symm ho)]
            simp [h₀, ho]
      rw [hcount]

/-! ## Facts about the registry -/

theorem get_evictStale_of_fresh (clock : Nat → Nat) (id : JSString) (m : JobMeta)
    (hfresh : ∀ j, (clock j : Int) - (m.updatedAt : Int) ≤ 600000) :
    ∀ (r : Registry) (k : Nat), JSMap.get r id = some m →
      JSMap.get (evictStale clock k r) id = some m := by
  intro r
  induction r with
  | nil => intro k h; simp [JSMap.get] at h
  | cons p r ih =>
    obtain ⟨id₀, m₀⟩ := p
    intro k h
    unfold JSMap.get at h
    unfold evictStale
    by_cases hid : id₀ = id
    · simp only [hid, if_true, Option.some.injEq] at h
      subst h
      have := hfresh k
      rw [if_neg (by omega)]
      simp [JSMap.get, hid]
    · simp only [hid, if_false] at h
      split
      · exact ih (k + 1) h
      · simp only [JSMap.get, hid, if_false]
        exact ih (k + 1) h

theorem mem_evictStale_const (t : Nat) (p : JSString × JobMeta) :
    ∀ (r : Registry) (k : Nat), p ∈ evictStale (fun _ => t) k r →
      p ∈ r ∧ (t : Int) - (p.2.updatedAt : Int) ≤ 600000 := by
  intro r
  induction r with
  | nil => intro k h; simp [evictStale] at h
  | cons q r ih =>
    obtain ⟨id₀, m₀⟩ := q
    intro k h
    unfold evictStale at h
    split at h
    · obtain ⟨h1, h2⟩ := ih (k + 1) h
      exact ⟨List.mem_cons_of_mem _ h1, h2⟩
    · rename_i hstale
      rcases List.mem_cons.1 h with h | h
      · subst h
        exact ⟨List.mem_cons_self _ _, by simp only at hstale ⊢; omega⟩
      · obtain ⟨h1, h2⟩ := ih (k + 1) h
        exact ⟨List.mem_cons_of_mem _ h1, h2⟩

theorem setJobStatus_present (jobs : Registry) (jobId : JSString) (hid : jobId ≠ [])
    (status : JobStatus) (clock : Nat → Nat) :
    setJobStatus jobs (some jobId) status clock
      = evictStale clock 1 (JSMap.set jobs jobId ⟨status, clock 0⟩) := by
  cases jobId with
  | nil => exact absurd rfl hid
  | cons c cs => rfl

/-- After a write whose clock does not run more than ten minutes ahead of its
first reading, a poll for the written identifier answers the written status. -/
theorem jobStatus_setJobStatus_self (jobs : Registry) (jobId : JSString) (hid : jobId ≠ [])
    (status : JobStatus) (clock : Nat → Nat)
    (hclock : ∀ k, (clock k : Int) - (clock 0 : Int) ≤ 600000) :
    jobStatus (setJobStatus jobs (some jobId) status clock) jobId = status := by
  rw [setJobStatus_present jobs jobId hid]
  unfold jobStatus
  rw [get_evictStale_of_fresh clock jobId ⟨status, clock 0⟩ hclock _ 1
    (JSMap.get_set_self _ _ _)]

/-! ## Claims about the registry and the batch listeners -/

theorem pollJobStatus_present (jobs : Registry) (jobId : JSString) (hid : jobId ≠ []) :
    pollJobStatus jobs (some jobId) = PollResponse.status (jobStatus jobs jobId) := by
  cases jobId with
  | nil => exact absurd rfl hid
  | cons c cs => rfl

/-- C8: for every registry, every non-empty `jobId`, every status and every
write time `t`, after `setJobStatus(jobId, status)` the registry maps `jobId`
to that status with `updatedAt = t`, so a poll answers that status; it holds
no entry older than 600000 ms; every other entry that is at most 600000 ms old
is kept unchanged; and a poll for an identifier with no entry answers
`unknown`. -/
theorem setJobStatus_upsert_and_evict (jobs : Registry) (jobId : JSString)
    (hid : jobId ≠ []) (status : JobStatus) (t : Nat) :
    JSMap.get (setJobStatus jobs (some jobId) status (fun _ => t)) jobId
      = some ⟨status, t⟩ ∧
    pollJobStatus (setJobStatus jobs (some jobId) status (fun _ => t)) (some jobId)
      = PollResponse.status status ∧
    (∀ p ∈ setJobStatus jobs (some jobId) status (fun _ => t),
      (t : Int) - (p.2.updatedAt : Int) ≤ 600000) ∧
    (∀ (other : JSString) (m : JobMeta), other ≠ jobId → JSMap.get jobs other = some m →
      (t : Int) - (m.updatedAt : Int) ≤ 600000 →
      JSMap.get (setJobStatus jobs (some jobId) status (fun _ => t)) other = some m) ∧
    (∀ (r : Registry) (absent : JSString), absent ≠ [] → JSMap.get r absent = none →
      pollJobStatus r (some absent) = PollResponse.status JobStatus.unknown) := by
  have hself : JSMap.get (setJobStatus jobs (some jobId) status (fun _ => t)) jobId
      = some ⟨status, t⟩ := by
    rw [setJobStatus_present jobs jobId hid]
    exact get_evictStale_of_fresh _ jobId ⟨status, t⟩ (fun _ => by simp) _ 1
      (JSMap.get_set_self _ _ _)
  refine ⟨hself, ?_, ?_, ?_, ?_⟩
  · rw [pollJobStatus_present _ _ hid]
    unfold jobStatus
    rw [hself]
  · intro p hp
    rw [setJobStatus_present jobs jobId hid] at hp
    exact (mem_evictStale_const t p _ 1 hp).2
  · intro other m hne hget hfresh
    rw [setJobStatus_present jobs jobId hid]
    apply get_evictStale_of_fresh _ other m (fun _ => hfresh) _ 1
    rw [JSMap.get_set_other _ _ _ _ hne]
    exact hget
  · intro r absent hne h
    rw [pollJobStatus_present _ _ hne]
    unfold jobStatus
    rw [h]

/-- C8 at a registry with one stale and one fresh entry, written at time 800000. -/
theorem setJobStatus_upsert_and_evict_witness :
    setJobStatus sampleRegistry (some (ascii "j")) JobStatus.running (fun _ => 800000)
      = [(ascii "new", ⟨JobStatus.running, 700000⟩), (ascii "j", ⟨JobStatus.running, 800000⟩)] ∧
    (JSMap.get (setJobStatus sampleRegistry (some (ascii "j")) JobStatus.running
        (fun _ => 800000)) (ascii "j") = some ⟨JobStatus.running, 800000⟩ ∧
    pollJobStatus (setJobStatus sampleRegistry (some (ascii "j")) JobStatus.running
        (fun _ => 800000)) (some (ascii "j")) = PollResponse.status JobStatus.running ∧
    (∀ p ∈ setJobStatus sampleRegistry (some (ascii "j")) JobStatus.running
        (fun _ => 800000), ((800000 : Nat) : Int) - (p.2.updatedAt : Int) ≤ 600000) ∧
    (∀ (other : JSString) (m : JobMeta), other ≠ ascii "j" →
      JSMap.get sampleRegistry other = some m →
      ((800000 : Nat) : Int) - (m.updatedAt : Int) ≤ 600000 →
      JSMap.get (setJobStatus sampleRegistry (some (ascii "j")) JobStatus.running
        (fun _ => 800000)) other = some m) ∧
    (∀ (r : Registry) (absent : JSString), absent ≠ [] → JSMap.get r absent = none →
      pollJobStatus r (some absent) = PollResponse.status JobStatus.unknown)) :=
  ⟨by decide,
    setJobStatus_upsert_and_evict sampleRegistry (ascii "j") (by decide) JobStatus.running
      800000⟩

/-! ## After cancellation the job is never `done` -/

theorem mem_keys_of_get {r : Registry} {id : JSString} {m : JobMeta}
    (h : JSMap.get r id = some m) : id ∈ r.map Prod.fst := by
  induction r with
  | nil => simp [JSMap.get] at h
  | cons p r ih =>
    obtain ⟨id₀, m₀⟩ := p
    unfold JSMap.get at h
    by_cases hid : id₀ = id
    · simp [hid]
    · simp only [hid, if_false] at h
      exact List.mem_cons_of_mem _ (ih h)

theorem keys_set (r : Registry) (id : JSString) (m : JobMeta) :
    (JSMap.set r id m).map Prod.fst
      = if id ∈ r.map Prod.fst then r.map Prod.fst else r.map Prod.fst ++ [id] := by
  induction r with
  | nil => simp [JSMap.set]
  | cons p r ih =>
    obtain ⟨id₀, m₀⟩ := p
    unfold JSMap.set
    by_cases hid : id₀ = id
    · simp [hid]
    · have hid' : ¬ id = id₀ := fun e => hid e.symm
      simp only [hid, if_false, List.map_cons, ih, List.mem_cons, hid', false_or]
      split <;> simp

theorem keysDistinct_set {r : Registry} (h : keysDistinct r) (id : JSString) (m : JobMeta) :
    keysDistinct (JSMap.set r id m) := by
  unfold keysDistinct at h ⊢
  rw [keys_set]
  split
  · exact h
  · rename_i hid
    exact List.Nodup.append h (List.nodup_singleton _) (by simpa using hid)

theorem evictStale_sublist (clock : Nat → Nat) (r : Registry) :
    ∀ k, List.Sublist (evictStale clock k r) r := by
  induction r with
  | nil => intro k; exact List.Sublist.slnil
  | cons p r ih =>
    obtain ⟨id₀, m₀⟩ := p
    intro k
    unfold evictStale
    split
    · exact List.Sublist.cons _ (ih (k + 1))
    · exact List.Sublist.cons₂ _ (ih (k + 1))

theorem keysDistinct_evictStale {r : Registry} (h : keysDistinct r) (clock : Nat → Nat)
    (k : Nat) : keysDistinct (evictStale clock k r) :=
  List.Nodup.sublist (List.Sublist.map _ (evictStale_sublist clock r k)) h

theorem keysDistinct_setJobStatus {r : Registry} (h : keysDistinct r)
    (jobId : Option JSString) (status : JobStatus) (clock : Nat → Nat) :
    keysDistinct (setJobStatus r jobId status clock) := by
  unfold setJobStatus
  split
  · exact h
  · exact h
  · exact keysDistinct_evictStale (keysDistinct_set h _ _) clock 1

theorem get_of_get_evictStale (clock : Nat → Nat) (id : JSString) (m : JobMeta) :
    ∀ (r : Registry) (k : Nat), keysDistinct r →
      JSMap.get (evictStale clock k r) id = some m → JSMap.get r id = some m := by
  intro r
  induction r with
  | nil => intro k _ h; simp [evictStale, JSMap.get] at h
  | cons p r ih =>
    obtain ⟨id₀, m₀⟩ := p
    intro k hwf h
    have hwf' : id₀ ∉ r.map Prod.fst ∧ keysDistinct r := by
      unfold keysDistinct at hwf ⊢
      simpa using hwf
    unfold evictStale at h
    split at h
    · have h1 := ih (k + 1) hwf'.2 h
      have hne : ¬ id₀ = id := fun e => hwf'.1 (e ▸ mem_keys_of_get h1)
      simp only [JSMap.get, hne, if_false]
      exact h1
    · unfold JSMap.get at h ⊢
      by_cases hid : id₀ = id
      · simpa [hid] using h
      · simp only [hid, if_false] at h ⊢
        exact ih (k + 1) hwf'.2 h

theorem jobStatus_evictStale (clock : Nat → Nat) (id : JSString) (r : Registry) (k : Nat)
    (hwf : keysDistinct r) :
    jobStatus (evictStale clock k r) id = jobStatus r id ∨
    jobStatus (evictStale clock k r) id = JobStatus.unknown := by
  unfold jobStatus
  cases h : JSMap.get (evictStale clock k r) id with
  | none => exact Or.inr rfl
  | some m => rw [get_of_get_evictStale clock id m r k hwf h]; exact Or.inl rfl

/-- What a poll can answer after a write: the status written, if the write
was for the polled identifier; what it answered before; or `unknown` when the
entry was evicted. -/
theorem jobStatus_setJobStatus (jobs : Registry) (hwf : keysDistinct jobs)
    (jobId : Option JSString) (status : JobStatus) (clock : Nat → Nat) (id : JSString) :
    jobStatus (setJobStatus jobs jobId status clock) id = JobStatus.unknown ∨
    (jobId = some id ∧ jobStatus (setJobStatus jobs jobId status clock) id = status) ∨
    jobStatus (setJobStatus jobs jobId status clock) id = jobStatus jobs id := by
  unfold setJobStatus
  split
  · exact Or.inr (Or.inr rfl)
  · exact Or.inr (Or.inr rfl)
  · rename_i c cs
    rcases jobStatus_evictStale clock id _ 1 (keysDistinct_set hwf (c :: cs) ⟨status, clock 0⟩)
      with h | h
    · rw [h]
      by_cases hid : id = c :: cs
      · subst hid
        right; left
        refine ⟨rfl, ?_⟩
        unfold jobStatus
        rw [JSMap.get_set_self]
      · right; right
        unfold jobStatus
        rw [JSMap.get_set_other _ _ _ _ hid]
    · exact Or.inl h

theorem resumePass_jobs (s : BatchState) (sessionDir : JSString) (it : Item)
    (env : PassEnv) (clock : Nat → Nat) :
    (resumePass s sessionDir it env clock).cancelled = s.cancelled ∧
    (resumePass s sessionDir it env clock).jobId = s.jobId ∧
    ((resumePass s sessionDir it env clock).jobs = s.jobs ∨
      (resumePass s sessionDir it env clock).jobs
        = setJobStatus s.jobs s.jobId JobStatus.error clock) := by
  unfold resumePass appendDiagnostic onSetupError
  cases env.run with
  | rejected message =>
    by_cases hc : archiveClosed s = true <;> simp [hc]
  | resolved token =>
    by_cases hr : s.sessionDirRemoved = true
    · by_cases hc : archiveClosed s = true <;> simp [hr, hc]
    · cases locatedFile sessionDir env with
      | none => simp [hr]
      | some fp =>
        by_cases hc : archiveClosed s = true <;> simp [hr, hc, archiveClosed] <;>
          simp [archiveClosed] at hc <;> simp [hc]

/-- While the archive is open and the session directory is there, a resumed
pass does what `loopBody` does. -/
theorem resumePass_open (s : BatchState) (sessionDir : JSString) (it : Item)
    (env : PassEnv) (clock : Nat → Nat) (hc : archiveClosed s = false)
    (hr : s.sessionDirRemoved = false) :
    resumePass s sessionDir it env clock
      = { s with
          used := (loopBody sessionDir s.used it env).1
          archive := s.archive ++ (loopBody sessionDir s.used it env).2.toList } := by
  unfold resumePass appendDiagnostic loopBody
  cases env.run with
  | rejected message => simp [hc]
  | resolved token =>
    cases locatedFile sessionDir env with
    | none => cases s; simp_all
    | some fp => simp [hr, hc]

theorem afterCancel_setJobStatus (jobs : Registry) (hwf : keysDistinct jobs)
    (jobId : Option JSString) (status : JobStatus) (clock : Nat → Nat) (id : JSString)
    (hst : afterCancel status) (hs : afterCancel (jobStatus jobs id)) :
    afterCancel (jobStatus (setJobStatus jobs jobId status clock) id) := by
  rcases jobStatus_setJobStatus jobs hwf jobId status clock id with h | ⟨-, h⟩ | h
  · exact Or.inr (Or.inr h)
  · rw [h]; exact hst
  · rw [h]; exact hs

theorem step_afterCancel (s : BatchState) (st : Step) (id : JSString)
    (hown : st.isOwn = true) (hwf : keysDistinct s.jobs) (hc : s.cancelled = true)
    (hid : s.jobId = some id) (hs : afterCancel (jobStatus s.jobs id)) :
    keysDistinct (step s st).jobs ∧ (step s st).cancelled = true ∧
    (step s st).jobId = some id ∧ afterCancel (jobStatus (step s st).jobs id) := by
  cases st with
  | spawn child => exact ⟨hwf, hc, hid, hs⟩
  | childClosed child => exact ⟨hwf, hc, hid, hs⟩
  | pass sessionDir it env clock =>
    have h : step s (Step.pass sessionDir it env clock) = s := by simp [step, hc]
    rw [h]; exact ⟨hwf, hc, hid, hs⟩
  | resume sessionDir it env clock =>
    obtain ⟨h1, h2, h3⟩ := resumePass_jobs s sessionDir it env clock
    show keysDistinct (resumePass s sessionDir it env clock).jobs ∧
      (resumePass s sessionDir it env clock).cancelled = true ∧
      (resumePass s sessionDir it env clock).jobId = some id ∧
      afterCancel (jobStatus (resumePass s sessionDir it env clock).jobs id)
    rw [h1, h2]
    rcases h3 with h3 | h3 <;> rw [h3]
    · exact ⟨hwf, hc, hid, hs⟩
    · exact ⟨keysDistinct_setJobStatus hwf _ _ _, hc, hid,
        afterCancel_setJobStatus _ hwf _ _ _ _ (Or.inr (Or.inl rfl)) hs⟩
  | afterLoop =>
    have h : step s Step.afterLoop = s := by simp [step, hc]
    rw [h]; exact ⟨hwf, hc, hid, hs⟩
  | finish clock =>
    have h : step s (Step.finish clock) = s := by simp [step, onFinish, hc]
    rw [h]; exact ⟨hwf, hc, hid, hs⟩
  | close clock =>
    exact ⟨keysDistinct_setJobStatus hwf _ _ _, rfl, hid,
      afterCancel_setJobStatus _ hwf _ _ _ _ (Or.inl rfl) hs⟩
  | setupError clock =>
    exact ⟨keysDistinct_setJobStatus hwf _ _ _, hc, hid,
      afterCancel_setJobStatus _ hwf _ _ _ _ (Or.inr (Or.inl rfl)) hs⟩
  | registryWrite jobId status clock => simp [Step.isOwn] at hown

theorem run_afterCancel (steps : List Step) (id : JSString) :
    ∀ s : BatchState, (∀ st ∈ steps, st.isOwn = true) → keysDistinct s.jobs →
      s.cancelled = true → s.jobId = some id → afterCancel (jobStatus s.jobs id) →
      afterCancel (jobStatus (run s steps).jobs id) := by
  induction steps with
  | nil => intro s _ _ _ _ hs; exact hs
  | cons st steps ih =>
    intro s hown hwf hc hid hs
    obtain ⟨h1, h2, h3, h4⟩ :=
      step_afterCancel s st id (hown st (List.mem_cons_self _ _)) hwf hc hid hs
    have := ih (step s st) (fun x hx => hown x (List.mem_cons_of_mem _ hx)) h1 h2 h3 h4
    simpa only [run, List.foldl_cons] using this

/-- Once the close listener of a batch has run, no later step of that batch
makes its job `done`: the status stays among `cancelled`, `error` (after the
setup-error path) and `unknown` (after eviction). -/
theorem never_done_after_close (s : BatchState) (id : JSString) (clock : Nat → Nat)
    (steps : List Step) (hwf : keysDistinct s.jobs) (hid : s.jobId = some id)
    (hne : id ≠ []) (hown : ∀ st ∈ steps, st.isOwn = true) :
    jobStatus (run (onClose s clock) steps).jobs id ≠ JobStatus.done := by
  have h0 : afterCancel (jobStatus (onClose s clock).jobs id) := by
    simp only [onClose, hid]
    rw [setJobStatus_present _ _ hne]
    rcases jobStatus_evictStale clock id _ 1
      (keysDistinct_set hwf id ⟨JobStatus.cancelled, clock 0⟩) with h | h
    · rw [h]
      unfold jobStatus
      rw [JSMap.get_set_self]
      exact Or.inl rfl
    · exact Or.inr (Or.inr h)
  have := run_afterCancel steps id (onClose s clock) hown
    (keysDistinct_setJobStatus hwf _ _ _) rfl hid h0
  rcases this with h | h | h <;> rw [h] <;> decide

/-! ## Claims about the sanitizer and the header -/

/-- C9: for every input (a string, the empty string, an absent value),
`sanitizeFilename` returns a non-empty string of at most 140 code units; it
returns the default `download` when the input is absent or empty and when the
cleaned text is empty. -/
theorem sanitizeFilename_nonempty_bounded (name : Option JSString) :
    sanitizeFilename name ≠ [] ∧ (sanitizeFilename name).length ≤ 140 ∧
    sanitizeFilename none = ascii "download" ∧
    sanitizeFilename (some []) = ascii "download" ∧
    (∀ s : JSString, cleaned s = [] → sanitizeFilename (some s) = ascii "download") := by
  refine ⟨sanitizeFilename_ne_nil name, sanitizeFilename_length name, by decide, by decide, ?_⟩
  intro s hs
  have hd : defaultName = ascii "download" := by decide
  unfold sanitizeFilename
  split
  · exact hd
  · exact hd
  · rename_i contra c cs heq
    simp only [Option.some.injEq] at heq
    subst heq
    have ht : truncate140 (cleaned (c :: cs)) = [] := by rw [hs]; rfl
    simp only [ht, if_true]
    exact hd

/-- C5, as stated, fails: a control character that is not whitespace (here
U+0001) passes through `sanitizeFilename` unchanged. -/
theorem sanitizeFilename_keeps_control_character :
    sanitizeFilename (some [97, 1, 98]) = [97, 1, 98] ∧
    ¬ ∀ (name : Option JSString), ∀ c ∈ sanitizeFilename name,
        c ≠ 47 ∧ c ≠ 92 ∧ 32 ≤ c ∧ c ≠ 127 := by
  refine ⟨by decide, fun h => ?_⟩
  have h1 := h (some [97, 1, 98]) 1 (by decide)
  omega

/-- The backslash is not in the character class of line 50: a title holding
one keeps it. -/
theorem sanitizeFilename_keeps_backslash :
    sanitizeFilename (some [97, 92, 98]) = [97, 92, 98] := by
  decide

/-- C5, amended: for every input, the string returned by `sanitizeFilename`
contains no slash, none of `: * ? " < > |`, no tab, line feed or carriage
return, and no whitespace character other than the plain space. -/
theorem sanitizeFilename_excluded_characters (name : Option JSString) (c : Nat)
    (h : c ∈ sanitizeFilename name) :
    (c ≠ 47 ∧ c ≠ 58 ∧ c ≠ 42 ∧ c ≠ 63 ∧ c ≠ 34 ∧ c ≠ 60 ∧ c ≠ 62 ∧ c ≠ 124 ∧
      c ≠ 9 ∧ c ≠ 10 ∧ c ≠ 13) ∧
    (isWhitespace c = true → c = 32) := by
  obtain ⟨h1, h2⟩ := isKept_of_mem_sanitizeFilename h
  exact ⟨not_hostile_iff h1, h2⟩

/-- C5, amended, at the title `a/<tab>b` and the underscore of its result. -/
theorem sanitizeFilename_excluded_characters_witness :
    (95 ∈ sanitizeFilename (some [97, 47, 9, 98])) ∧
    ((95 ≠ 47 ∧ 95 ≠ 58 ∧ 95 ≠ 42 ∧ 95 ≠ 63 ∧ 95 ≠ 34 ∧ 95 ≠ 60 ∧ 95 ≠ 62 ∧ 95 ≠ 124 ∧
      95 ≠ 9 ∧ 95 ≠ 10 ∧ 95 ≠ 13) ∧
    (isWhitespace 95 = true → 95 = 32)) :=
  ⟨by decide, sanitizeFilename_excluded_characters (some [97, 47, 9, 98]) 95 (by decide)⟩

theorem plainFilename_header (safe ext : JSString) (hq : ∀ c ∈ safe, c ≠ 34) :
    plainFilename (headerOpen ++ safe ++ headerMiddle ++ ext) = safe := by
  unfold plainFilename
  have hm : headerMiddle ++ ext = 34 :: (ascii "; filename*=UTF-8" ++ [39, 39] ++ ext) := by
    have : headerMiddle = 34 :: (ascii "; filename*=UTF-8" ++ [39, 39]) := by decide
    rw [this]; rfl
  rw [List.append_assoc, List.append_assoc, List.drop_left, hm]
  exact takeWhile_append_stop _ _ _ _ (fun c hc => by simpa using hq c hc) (by decide)

/-- Whenever `setDownloadFilenameHeaders` sets the header, the text of the
plain `filename="..."` attribute is `sanitizeFilename` of the file name; it
holds no double quote and only characters `res.setHeader` accepts. -/
theorem plainFilename_of_set (filename header : JSString)
    (h : setDownloadFilenameHeaders filename = HeaderResult.set header) :
    plainFilename header = sanitizeFilename (some filename) ∧
    ∀ c ∈ plainFilename header, c ≠ 34 ∧ isValidHeaderChar c = true := by
  unfold setDownloadFilenameHeaders at h
  simp only at h
  split at h
  · cases h
  · rename_i ext hext
    split at h
    · rename_i hall
      simp only [HeaderResult.set.injEq] at h
      subst h
      have hq : ∀ c ∈ sanitizeFilename (some filename), c ≠ 34 :=
        fun c hc => (not_hostile_iff (isKept_of_mem_sanitizeFilename hc).1).2.2.2.2.1
      have hp := plainFilename_header (sanitizeFilename (some filename)) ext hq
      refine ⟨hp, fun c hc => ?_⟩
      rw [hp] at hc
      refine ⟨hq c hc, ?_⟩
      rw [List.all_eq_true] at hall
      exact hall c (by simp [hc])
    · cases h

/-- C6 at two failing inputs.  For the name `é.mp4` the header is set and its
plain `filename="..."` attribute holds the code unit U+00E9, which is not
ASCII.  For the name `日本語.mp4` the value holds code units above U+00FF,
`res.setHeader` throws `ERR_INVALID_CHAR` and no header is set at all. -/
theorem plain_filename_not_ascii_safe :
    setDownloadFilenameHeaders [233, 46, 109, 112, 52]
      = HeaderResult.set (ascii "attachment; filename=\"" ++ [233, 46, 109, 112, 52]
          ++ ascii "\"; filename*=UTF-8" ++ [39, 39] ++ ascii "%C3%A9.mp4") ∧
    plainFilename (ascii "attachment; filename=\"" ++ [233, 46, 109, 112, 52]
          ++ ascii "\"; filename*=UTF-8" ++ [39, 39] ++ ascii "%C3%A9.mp4")
      = [233, 46, 109, 112, 52] ∧
    sanitizeFilename (some [26085, 26412, 35486, 46, 109, 112, 52])
      = [26085, 26412, 35486, 46, 109, 112, 52] ∧
    setDownloadFilenameHeaders [26085, 26412, 35486, 46, 109, 112, 52]
      = HeaderResult.invalidChar := by
  refine ⟨by decide, by decide, by decide, by decide⟩

set_option maxRecDepth 100000 in
/-- C10, as stated, fails: a sanitized title of 140 code units followed by
`.mp4` is cut back to 140 code units by the second sanitisation, and an
extension holding a replaced character (`.a:b`) is rewritten. -/
theorem second_sanitisation_changes_name :
    sanitizeFilename (some (sanitizeFilename (some (List.replicate 140 97)) ++ ascii ".mp4"))
      = List.replicate 140 97 ∧
    sanitizeFilename (some (sanitizeFilename (some (ascii "t")) ++ ascii ".a:b"))
      = ascii "t.a_b" ∧
    ¬ ∀ (title : Option JSString) (rest : JSString), rest ≠ [] → 46 ∉ rest →
        sanitizeFilename (some (sanitizeFilename title ++ 46 :: rest))
          = sanitizeFilename title ++ 46 :: rest := by
  refine ⟨by decide, by decide, fun h => ?_⟩
  have h1 := h (some (ascii "t")) (ascii "a:b") (by decide) (by decide)
  revert h1
  decide

/-- C10, amended: for every title and every extension made of `.` followed by
characters that are neither whitespace nor replaced characters, such that the
sanitized title and the extension together have at most 140 code units,
sanitising the joined name again returns it unchanged. -/
theorem second_sanitisation_fixed (title : Option JSString) (rest : JSString)
    (hclean : ∀ c ∈ rest, isHostile c = false ∧ isWhitespace c = false)
    (hlen : (sanitizeFilename title ++ 46 :: rest).length ≤ 140) :
    sanitizeFilename (some (sanitizeFilename title ++ 46 :: rest))
      = sanitizeFilename title ++ 46 :: rest := by
  obtain ⟨hn, a, r, har, ha⟩ := sanitizeFilename_shape title
  have hk : ∀ c ∈ sanitizeFilename title, isHostile c = false :=
    fun c hc => (isKept_of_mem_sanitizeFilename hc).1
  have hext : ∀ c ∈ (46 :: rest : JSString), isHostile c = false ∧ isWhitespace c = false := by
    intro c hc
    rcases List.mem_cons.1 hc with h | h
    · subst h; exact ⟨by decide, by decide⟩
    · exact hclean c h
  rw [har] at hn hk hlen ⊢
  rw [List.cons_append] at hlen ⊢
  apply sanitizeFilename_fixed
  · intro c hc
    rw [← List.cons_append] at hc
    rcases List.mem_append.1 hc with h | h
    · exact hk c h
    · exact (hext c h).1
  · rw [← List.cons_append]
    exact isNormal_append hn (fun c hc => (hext c hc).2)
  · exact ha
  · intro h
    have key : ∀ (l : JSString) (hl : l ≠ []), l = (a :: r) ++ 46 :: rest →
        isWhitespace (l.getLast hl) = false := by
      intro l hl e
      subst e
      rw [List.getLast_append_of_ne_nil (List.cons_ne_nil 46 rest)]
      exact (hext _ (List.getLast_mem _)).2
    exact key _ h rfl
  · exact hlen

/-- C10, amended, at the title `a/b  c` and the extension `.mp4`. -/
theorem second_sanitisation_fixed_witness :
    (sanitizeFilename (some (ascii "a/b  c")) ++ 46 :: ascii "mp4").length ≤ 140 ∧
    sanitizeFilename (some (sanitizeFilename (some (ascii "a/b  c")) ++ 46 :: ascii "mp4"))
      = sanitizeFilename (some (ascii "a/b  c")) ++ 46 :: ascii "mp4" :=
  ⟨by decide,
    second_sanitisation_fixed (some (ascii "a/b  c")) (ascii "mp4") (by decide) (by decide)⟩

/-! ## Claims about the batch loop -/

/-- C7: when an item of a batch resolves to the entry name `base ++ ext`,
`base` being a sanitized title and `ext` a dot followed by one or more
non-dot characters, its entry is written under `base ++ ext` if no earlier
item resolved to that name, and under `base ++ " (n)" ++ ext` if `n ≥ 1`
earlier items did: the `j`-th of them gets the counter `j - 1`, placed before
the extension. -/
theorem collision_counter_before_extension (sessionDir : JSString)
    (batch : List (Item × PassEnv)) (title : Option JSString) (rest : JSString)
    (hne : rest ≠ []) (hdot : 46 ∉ rest) (i : Nat) (it : Item) (env : PassEnv)
    (hi : batch[i]? = some (it, env))
    (hres : resolvedName sessionDir it env = some (sanitizeFilename title ++ 46 :: rest)) :
    writtenName sessionDir batch i
      = some (
          if priorCollisions sessionDir batch i (sanitizeFilename title ++ 46 :: rest) = 0
          then sanitizeFilename title ++ 46 :: rest
          else sanitizeFilename title ++ ascii " (" ++
            numToString (priorCollisions sessionDir batch i (sanitizeFilename title ++ 46 :: rest))
            ++ ascii ")" ++ 46 :: rest) := by
  unfold writtenName
  rw [loopTrace_name sessionDir _ batch [] i it env hi hres]
  have h0 : recorded [] (sanitizeFilename title ++ 46 :: rest) = 0 := rfl
  rw [h0, Nat.zero_add,
    renamed_append _ rest _ (sanitizeFilename_ne_nil title) hne hdot (not_mem_resolvedName hres)]

/-- C7 at the second item of a batch whose first two items are titled `a`. -/
theorem collision_counter_before_extension_witness :
    (resolvedName sampleDir (sampleItem "a") (sampleResolved "tok00002" ["tok00002.a.mp4"])
        = some (sanitizeFilename (some (ascii "a")) ++ 46 :: ascii "mp4")) ∧
    writtenName sampleDir sampleClash 1 = some (ascii "a (1).mp4") ∧
    writtenName sampleDir sampleClash 1
      = some (
          if priorCollisions sampleDir sampleClash 1
              (sanitizeFilename (some (ascii "a")) ++ 46 :: ascii "mp4") = 0
          then sanitizeFilename (some (ascii "a")) ++ 46 :: ascii "mp4"
          else sanitizeFilename (some (ascii "a")) ++ ascii " (" ++
            numToString (priorCollisions sampleDir sampleClash 1
              (sanitizeFilename (some (ascii "a")) ++ 46 :: ascii "mp4"))
            ++ ascii ")" ++ 46 :: ascii "mp4") :=
  ⟨by decide, by decide,
    collision_counter_before_extension sampleDir sampleClash (some (ascii "a")) (ascii "mp4")
      (by decide) (by decide) 1 (sampleItem "a")
      (sampleResolved "tok00002" ["tok00002.a.mp4"]) rfl (by decide)⟩

/-- C1 at a failing input: of three items that all succeed, titled `a`, `a`
and `a (1)`, the second is renamed to `a (1).mp4` and the third is written
under its own name `a (1).mp4`; two rejections read at the same millisecond
give two diagnostic entries of the same name. -/
theorem archive_names_repeat :
    (archiveEntries sampleDir sampleClash).map Entry.name
      = [ascii "a.mp4", ascii "a (1).mp4", ascii "a (1).mp4"] ∧
    ¬ ((archiveEntries sampleDir sampleClash).map Entry.name).Nodup ∧
    (archiveEntries sampleDir
        [(sampleItem "a", sampleRejected 1700000000000),
         (sampleItem "b", sampleRejected 1700000000000)]).map Entry.name
      = [ascii "erro-1700000000000.txt", ascii "erro-1700000000000.txt"] := by
  refine ⟨by decide, by decide, by decide⟩

/-- C2 at a failing input: the runner of the only item resolves but no file
with its token is in the session directory; the retrieval failed and the
archive stays empty, no diagnostic entry is appended. -/
theorem missing_file_appends_nothing :
    retrievalFailed sampleDir (sampleResolved "tok00001" []) = true ∧
    (archiveEntries sampleDir sampleNoFile).length = 0 ∧
    sampleNoFile.length = 1 := by
  refine ⟨by decide, by decide, by decide⟩

theorem loopBody_isSome (sessionDir : JSString) (used : JSMap JSString Nat) (it : Item)
    (env : PassEnv) :
    (loopBody sessionDir used it env).2.isSome = appendsEntry sessionDir env := by
  unfold loopBody appendsEntry
  cases env.run with
  | rejected message => rfl
  | resolved token =>
    simp only
    cases locatedFile sessionDir env with
    | none => rfl
    | some fp => rfl

/-- The loop appends one entry for every item whose runner rejected or whose
output file was located, and none for the others. -/
theorem loopTrace_length (sessionDir : JSString) (batch : List (Item × PassEnv)) :
    ∀ used : JSMap JSString Nat,
      (loopTrace sessionDir used batch).reduceOption.length
        = batch.countP (fun p => appendsEntry sessionDir p.2) := by
  induction batch with
  | nil => intro used; rfl
  | cons p batch ih =>
    obtain ⟨it, env⟩ := p
    intro used
    have h := loopBody_isSome sessionDir used it env
    simp only [loopTrace, List.countP_cons]
    cases hb : (loopBody sessionDir used it env).2 with
    | none =>
      rw [hb] at h
      simp only [Option.isSome_none] at h
      rw [List.reduceOption_cons_of_none, ih]
      simp [← h]
    | some e =>
      rw [hb] at h
      simp only [Option.isSome_some] at h
      rw [List.reduceOption_cons_of_some, List.length_cons, ih]
      simp [← h]

/-- The archive of a batch that ran to the end holds one entry for every item
whose runner rejected or whose output file was located. -/
theorem archiveEntries_length (sessionDir : JSString) (batch : List (Item × PassEnv)) :
    (archiveEntries sessionDir batch).length
      = batch.countP (fun p => appendsEntry sessionDir p.2) :=
  loopTrace_length sessionDir batch []

/-! ## Facts about the batch steps -/

/-- The close listener sets the cancellation flag, hands every handle of the
Active Process Set to the terminator and, when its clock does not run more
than ten minutes ahead of its first reading, leaves the job `cancelled`. -/
theorem onClose_effect (s : BatchState) (clock : Nat → Nat) :
    (onClose s clock).cancelled = true ∧
    (∀ child ∈ s.activeChildren, child ∈ (onClose s clock).terminated) ∧
    (∀ id : JSString, s.jobId = some id → id ≠ [] →
      (∀ k, (clock k : Int) - (clock 0 : Int) ≤ 600000) →
      jobStatus (onClose s clock).jobs id = JobStatus.cancelled) := by
  refine ⟨rfl, fun child h => ?_, ?_⟩
  · have hfold : ∀ (l t : List Nat), l.foldl killProcessTree t = t ++ l := by
      intro l
      induction l with
      | nil => intro t; simp
      | cons a l ih => intro t; simp [List.foldl_cons, ih, killProcessTree]
    show child ∈ s.activeChildren.foldl killProcessTree s.terminated
    rw [hfold]
    exact List.mem_append_right _ h
  intro id hid hne hclock
  simp only [onClose, hid]
  exact jobStatus_setJobStatus_self _ _ hne _ _ hclock

/-- A pass resumed after the close listener with a rejected runner does not
leave the job `cancelled`: its diagnostic `append` raises on the aborted
archive and the outer `catch` stores `error`. -/
theorem resume_after_close_stores_error (s : BatchState) (id : JSString)
    (closeClock clock : Nat → Nat) (sessionDir : JSString) (it : Item) (env : PassEnv)
    (message : JSString) (hid : s.jobId = some id) (hne : id ≠ [])
    (hrun : env.run = RunOutcome.rejected message)
    (hclock : ∀ k, (clock k : Int) - (clock 0 : Int) ≤ 600000) :
    jobStatus (resumePass (onClose s closeClock) sessionDir it env clock).jobs id
      = JobStatus.error := by
  unfold resumePass appendDiagnostic
  rw [hrun]
  have hc : archiveClosed (onClose s closeClock) = true := by simp [archiveClosed, onClose]
  simp only [hc, if_true]
  simp only [onSetupError, onClose, hid]
  exact jobStatus_setJobStatus_self _ _ hne _ _ hclock

/-! ## Claims about the job status -/

/-- C3 at a failing input: the client disconnects while the runner of the
first item is in flight.  After the close listener the handle is terminated,
the flag is set and the job is `cancelled`; the setup-error path that follows
stores `error`, which is the final status. -/
theorem cancelled_batch_ends_in_error :
    (run sampleStart [Step.spawn 1, Step.close (fun _ => 2000)]).terminated = [1] ∧
    (run sampleStart [Step.spawn 1, Step.close (fun _ => 2000)]).cancelled = true ∧
    jobStatus (run sampleStart [Step.spawn 1, Step.close (fun _ => 2000)]).jobs (ascii "j")
      = JobStatus.cancelled ∧
    jobStatus (run sampleStart sampleDisconnect).jobs (ascii "j") = JobStatus.error := by
  refine ⟨by decide, by decide, by decide, by decide⟩

/-- C4 at a failing input: a batch of one item completes, the finish listener
stores `done`, a terminal status; the close listener, which fires after it and
does not look whether the response has finished, then stores `cancelled` for
the same job, the entry still being in the registry. -/
theorem completed_batch_reports_cancelled :
    (run sampleStart sampleCompleted).archive.map Entry.name = [ascii "a.mp4"] ∧
    jobStatus (run sampleStart sampleCompleted).jobs (ascii "j") = JobStatus.done ∧
    JobStatus.done.isTerminal = true ∧
    jobStatus (run sampleStart (sampleCompleted ++ [Step.close (fun _ => 2001)])).jobs
      (ascii "j") = JobStatus.cancelled := by
  refine ⟨by decide, by decide, by decide, by decide⟩

/-- A later `setJobStatus` for the same identifier replaces a terminal status
as well: the write has no guard on what is stored. -/
theorem terminal_status_upserted :
    jobStatus (run sampleStart (sampleCompleted ++
        [Step.registryWrite (some (ascii "j")) JobStatus.running (fun _ => 3000)])).jobs
        (ascii "j") = JobStatus.running := by
  decide

end YtDownloader
